import Mathlib

/-!
Verification development for the eleventy-html-tag-templates plugin.

The plugin expands custom HTML tags into HTML fragments at build time.  Its
core is `HTMLTagTemplates` (src/src/index.ts and the earlier drafts in
src/unnamed/part_000 and src/unnamed/part_001): a registry of tag templates,
a per-document fixpoint rewrite loop (`recursive_template_transform` /
`recursive_transform` calling `transform` once per pass), attribute
forwarding onto the rendered root (`forward_html_attributes`), a `forward`
template helper, and stylesheet collection deduplicated per document via a
`processed_tags` set.

Shallow embedding conventions used throughout this file:
  * The cheerio document tree is embedded as the mutual inductive
    `Node`/`Forest` (elements with a name, an attribute mapping and
    children, plus text nodes).  cheerio's parse/serialize round trip on
    fragments is modelled as the identity on `Forest`; `serializeForest`
    is the explicit serializer used where the source serializes
    (`$el.html()`, `$.html()`).
  * JavaScript objects used as string maps are embedded as association
    lists `AttrMap` preserving insertion order, with `jsSet` modelling
    property assignment (overwrite keeps the position, a fresh key is
    appended) — the iteration order of `Object.entries`/`Object.keys`.
  * The nunjucks renderer and the stylesheet preprocessor are external
    collaborators; they are modelled as oracle function parameters.  A
    template's renderer is composed with the fragment parser, so it maps
    the render variables directly to a parsed `Forest`.
  * JavaScript exceptions are modelled with `Except JsErr`; `JsErr` also
    covers the `TypeError` raised by property access on `undefined`.
  * The `htmlElementAttributes` table comes from the external
    html-element-attributes npm package; `htmlElementAttributes` below is
    a fixture holding the entries this development uses, faithful to that
    package's data.
-/

/-- Attribute mappings / JS objects of strings: association lists in
insertion order (JS object key order for string keys). -/
abbrev AttrMap := List (String × String)

/-- JS property read `obj[k]` on an object embedded as an association
list; `none` is `undefined`.  `k in obj` is `(jsGet obj k).isSome`. -/
def jsGet {β : Type} : List (String × β) → String → Option β
  | [], _ => none
  | (k, v) :: rest, a => if k = a then some v else jsGet rest a

/-- JS property assignment `obj[k] = v`: an existing key keeps its
position and gets the new value, a fresh key is appended. -/
def jsSet (m : AttrMap) (k v : String) : AttrMap :=
  if (jsGet m k).isSome then
    m.map (fun p => if p.1 = k then (k, v) else p)
  else
    m ++ [(k, v)]

/-- JS `arr[i]` for an arbitrary integer index: out-of-range and negative
indices (for example the `[-1]` in src/src/index.ts line 31) give
`undefined`, modelled as `none`. -/
def jsIndex (xs : List String) (i : Int) : Option String :=
  if i < 0 then none else xs.get? i.toNat

/-- JS split helper for a one-character separator, recursing over the
character list: empty input gives one empty field, adjacent separators
give empty fields, a trailing separator a trailing empty field. -/
def splitCharAux (sep : Char) : List Char → List Char → List String
  | [], cur => [String.mk cur.reverse]
  | c :: rest, cur =>
      if c = sep then String.mk cur.reverse :: splitCharAux sep rest []
      else splitCharAux sep rest (c :: cur)

/-- JS split for a one-character separator. -/
def jsSplitChar (s : String) (sep : Char) : List String :=
  splitCharAux sep s.data []

/-- JS array join with a separator string. -/
def joinSep (sep : String) : List String → String
  | [] => ""
  | [x] => x
  | x :: y :: rest => x ++ sep ++ joinSep sep (y :: rest)

/-- JS test whether a string begins with the character `!`. -/
def jsStartsBang (s : String) : Bool :=
  match s.data with
  | [] => false
  | c :: _ => c = '!'

/-- JS slice dropping the first character. -/
def jsDropOne (s : String) : String :=
  String.mk (s.data.drop 1)

/-- JavaScript runtime errors thrown by the plugin code. -/
inductive JsErr where
  /-- "Template definition must have only one top level tag" -/
  | multipleRoots
  /-- "There is already a tag template named ..." / "Inferred tag name ... already exists" -/
  | duplicateTag
  /-- a TypeError from accessing a property of `undefined` -/
  | typeError
deriving Repr, DecidableEq

/-- The `"*"` entry of the external html-element-attributes package:
attributes valid on every element. -/
def htmlElementAttributesStar : List String :=
  ["accesskey", "autocapitalize", "autofocus", "class", "contenteditable",
   "dir", "draggable", "enterkeyhint", "hidden", "id", "inputmode", "is",
   "itemid", "itemprop", "itemref", "itemscope", "itemtype", "lang",
   "nonce", "slot", "spellcheck", "style", "tabindex", "title", "translate"]

/-- Per-element entries of the external html-element-attributes package
(fixture restricted to the element names used in this development;
`none` models an element name absent from the package's table). -/
def htmlElementAttributes : String → Option (List String) :=
  fun name =>
    if name = "a" then
      some ["charset", "coords", "download", "href", "hreflang", "name",
            "ping", "referrerpolicy", "rel", "rev", "shape", "target", "type"]
    else if name = "button" then
      some ["disabled", "form", "formaction", "formenctype", "formmethod",
            "formnovalidate", "formtarget", "name", "popovertarget",
            "popovertargetaction", "type", "value"]
    else if name = "div" then
      some ["align"]
    else
      none

/-- The allowed-attribute set computed in forward_html_attributes
(src/unnamed/part_001 lines 76-83): the element-specific list when the
element name is known, otherwise empty, concatenated with the global
`"*"` list. -/
def allowedAttributes (name : String) : List String :=
  ((htmlElementAttributes name).getD []) ++ htmlElementAttributesStar

mutual
/-- A node of the cheerio document tree: an element with tag name,
attribute mapping and children, or a text node. -/
inductive Node where
  | elem (name : String) (attribs : AttrMap) (children : Forest)
  | text (s : String)
deriving Repr
/-- A list of sibling nodes (a fragment / the children of an element). -/
inductive Forest where
  | nil
  | cons (n : Node) (rest : Forest)
deriving Repr
end

mutual
def nodeDecEq : (a b : Node) → Decidable (a = b)
  | .text s, .text t =>
      match String.decEq s t with
      | isTrue h => isTrue (by rw [h])
      | isFalse h => isFalse (by intro hh; cases hh; exact h rfl)
  | .text _, .elem _ _ _ => isFalse (by intro h; cases h)
  | .elem _ _ _, .text _ => isFalse (by intro h; cases h)
  | .elem n1 a1 c1, .elem n2 a2 c2 =>
      match String.decEq n1 n2, (inferInstanceAs (DecidableEq AttrMap)) a1 a2,
          forestDecEq c1 c2 with
      | isTrue h1, isTrue h2, isTrue h3 => isTrue (by rw [h1, h2, h3])
      | isFalse h1, _, _ => isFalse (by intro hh; cases hh; exact h1 rfl)
      | _, isFalse h2, _ => isFalse (by intro hh; cases hh; exact h2 rfl)
      | _, _, isFalse h3 => isFalse (by intro hh; cases hh; exact h3 rfl)
def forestDecEq : (a b : Forest) → Decidable (a = b)
  | .nil, .nil => isTrue rfl
  | .nil, .cons _ _ => isFalse (by intro h; cases h)
  | .cons _ _, .nil => isFalse (by intro h; cases h)
  | .cons n1 r1, .cons n2 r2 =>
      match nodeDecEq n1 n2, forestDecEq r1 r2 with
      | isTrue h1, isTrue h2 => isTrue (by rw [h1, h2])
      | isFalse h1, _ => isFalse (by intro hh; cases hh; exact h1 rfl)
      | _, isFalse h2 => isFalse (by intro hh; cases hh; exact h2 rfl)
end

instance : DecidableEq Node := nodeDecEq
instance : DecidableEq Forest := forestDecEq

/-- Concatenation of sibling lists (used where cheerio splices a
replacement fragment in place of a matched element). -/
def Forest.append : Forest → Forest → Forest
  | .nil, g => g
  | .cons n r, g => .cons n (Forest.append r g)

/-- Attribute serialization inside a start tag, in mapping order. -/
def serializeAttrs (attribs : AttrMap) : String :=
  attribs.foldl (fun acc kv => acc ++ " " ++ kv.1 ++ "=\"" ++ kv.2 ++ "\"") ("")

mutual
/-- Serialization of one node (cheerio's outer HTML). -/
def serializeNode : Node → String
  | .text s => s
  | .elem name attribs children =>
      "<" ++ name ++ serializeAttrs attribs ++ ">" ++ serializeForest children ++
        "</" ++ name ++ ">"
/-- Serialization of a fragment (`$el.html()` on its parent, `$.html()`
on the document root). -/
def serializeForest : Forest → String
  | .nil => ""
  | .cons n rest => serializeNode n ++ serializeForest rest
end

mutual
/-- `p` holds for the tag name of every element anywhere in the node. -/
def nodeAllElems (p : String → Bool) : Node → Bool
  | .text _ => true
  | .elem name _ children => p name && forestAllElems p children
/-- `p` holds for the tag name of every element anywhere in the forest. -/
def forestAllElems (p : String → Bool) : Forest → Bool
  | .nil => true
  | .cons n rest => nodeAllElems p n && forestAllElems p rest
end

/-- Number of element nodes among the top-level nodes of a fragment:
cheerio's `root().children().length` (text nodes are not children()). -/
def countTopElems : Forest → Nat
  | .nil => 0
  | .cons (.elem _ _ _) rest => countTopElems rest + 1
  | .cons (.text _) rest => countTopElems rest

/-- The first top-level element of a fragment (`root().children()[0]`),
as its name, attribute mapping and children; `none` models `undefined`. -/
def firstTopElem? : Forest → Option (String × AttrMap × Forest)
  | .nil => none
  | .cons (.elem n a c) _ => some (n, a, c)
  | .cons (.text _) rest => firstTopElem? rest

/-- Replace the attribute mapping of the first top-level element (the
in-place mutation of `top_element.attribs` before reserializing). -/
def setFirstTopElemAttribs : Forest → AttrMap → Forest
  | .nil, _ => .nil
  | .cons (.elem n _ c) rest, newA => .cons (.elem n newA c) rest
  | .cons (.text s) rest, newA => .cons (.text s) (setFirstTopElemAttribs rest newA)

/-- Attribute of the first top-level element of a fragment. -/
def rootAttr (f : Forest) (a : String) : Option String :=
  (firstTopElem? f).bind (fun p => jsGet p.2.1 a)

/-- One iteration of the attribute loop of forward_html_attributes
(src/unnamed/part_001 lines 73-106).  `templateKeys` are the registered
tag names, `topName` the rendered root's element name, `attribs` the
root's current attribute mapping, `(attr, value)` the usage attribute.
The whitelist is skipped when the root is itself a registered template
tag.  Note the id branch reads the root's `class` attribute — exactly as
the source does (line 100); a missing `class` there is JS `undefined`,
which `Array.prototype.join` renders as the empty string. -/
def forwardStep (templateKeys : List String) (topName : String)
    (attribs : AttrMap) (attr value : String) : AttrMap :=
  if ¬ templateKeys.contains topName ∧ ¬ (allowedAttributes topName).contains attr then
    attribs
  else
    let v1 := if attr = "class" ∧ (jsGet attribs ("class")).isSome then
        joinSep (" ") ((jsSplitChar value (' ')) ++ [((jsGet attribs ("class")).getD (""))])
      else value
    let v2 := if attr = "id" ∧ (jsGet attribs ("id")).isSome then
        joinSep (" ") ((jsSplitChar v1 (' ')) ++ [((jsGet attribs ("class")).getD (""))])
      else v1
    jsSet attribs attr v2

/-- HTMLTagTemplates.forward_html_attributes (src/unnamed/part_001 lines
60-109).  The rendered expansion arrives already parsed (`Forest`); the
source's final reserialization and the caller's reparse cancel, so the
result is the updated fragment.  More than one top-level element throws;
with no top-level element, `top_element` is `undefined` and the first
loop iteration throws a TypeError (with an empty attribute mapping the
loop never runs and the fragment is returned unchanged). -/
def forward_html_attributes (templateKeys : List String) (html_content : Forest)
    (attributes : AttrMap) : Except JsErr Forest :=
  if 1 < countTopElems html_content then .error .multipleRoots
  else
    match firstTopElem? html_content with
    | none =>
        match attributes with
        | [] => .ok html_content
        | _ :: _ => .error .typeError
    | some (name, attribs, _) =>
        .ok (setFirstTopElemAttribs html_content
              (attributes.foldl
                (fun acc kv => forwardStep templateKeys name acc kv.1 kv.2) attribs))

/-- The variables object `\x7b...attributes, content: $el.html()\x7d`
passed to the renderer: the usage attributes with the reserved `content`
key bound to the serialized inner content. -/
def renderVariables (attributes : AttrMap) (content : String) : AttrMap :=
  jsSet attributes ("content") content

/-- A template source file after front-matter parsing (gray-matter is an
external collaborator): optional `tag` and `stylesheet` fields and the
template body. -/
structure TemplateSrc where
  tag : Option String
  stylesheet : Option String
  body : String
deriving Repr, DecidableEq

/-- HTMLTagTemplates.add_template (src/unnamed/part_001 lines 44-58):
register a template under its front-matter `tag`, or under the inferred
default name when `tag` is absent; a name already present throws and the
registry is untouched (the throw precedes the assignment). -/
def add_template (templates : List (String × TemplateSrc)) (template : TemplateSrc)
    (default_tag_name : String) : Except JsErr (List (String × TemplateSrc)) :=
  match template.tag with
  | some t =>
      if (jsGet templates t).isSome then .error .duplicateTag
      else .ok (templates ++ [(t, template)])
  | none =>
      if (jsGet templates default_tag_name).isSome then .error .duplicateTag
      else .ok (templates ++ [(default_tag_name, template)])

/-- TagTemplate's tag-name computation (src/src/index.ts lines 30-34):
with no front-matter `tag`, the source evaluates
`template_filepath.split("/")[-1].split(".")[0]`; JS arrays have no
negative indexing, so `[-1]` is `undefined` and `.split` on it throws a
TypeError. -/
def tagTemplate_tag_name (template_filepath : String) (front_tag : Option String) :
    Except JsErr String :=
  match front_tag with
  | some t => .ok t
  | none =>
      match jsIndex (jsSplitChar template_filepath ('/')) (-1) with
      | none => .error .typeError
      | some seg => .ok ((jsSplitChar seg ('.')).headD (""))

/-- The inferred default tag name in the part_001 draft's
process_template_directory (src/unnamed/part_001 line 38):
`filename.split(".")[0]`. -/
def inferred_tag_name_p1 (filename : String) : String :=
  ((jsSplitChar filename ('.')).headD (""))

/-- Processing of one matched usage element in the part_001 transform
(src/unnamed/part_001 lines 156-175): render the template body with the
usage attributes plus `content`, then forward the usage attributes onto
the rendered root.  `env` is the nunjucks renderString oracle composed
with the fragment parser.  (cheerio's `$el.attr()` on a matched element
always yields its — possibly empty — attribute mapping, so the
`attributes !== undefined` guard of line 169 holds.) -/
def processOccurrenceP1 (env : String → AttrMap → Forest) (templateKeys : List String)
    (body : String) (attribs : AttrMap) (children : Forest) : Except JsErr Forest :=
  let expansion := env body (renderVariables attribs (serializeForest children))
  forward_html_attributes templateKeys expansion attribs

mutual
/-- `$(tag).each(...)` with replacement, over one node, in document
order: a matched element is replaced by its processed expansion (new
content is not re-matched within the same pass); an unmatched element
keeps its place and its children are traversed.  A thrown error aborts
the traversal. -/
def applyTagNodeP1 (env : String → AttrMap → Forest) (templateKeys : List String)
    (body tag : String) : Node → Except JsErr (Forest × Bool)
  | .text s => .ok (.cons (.text s) .nil, false)
  | .elem name attribs children =>
      if name = tag then
        match processOccurrenceP1 env templateKeys body attribs children with
        | .error e => .error e
        | .ok frag => .ok (frag, true)
      else
        match applyTagForestP1 env templateKeys body tag children with
        | .error e => .error e
        | .ok rc => .ok (.cons (.elem name attribs rc.1) .nil, rc.2)
/-- `$(tag).each(...)` with replacement over a forest of siblings. -/
def applyTagForestP1 (env : String → AttrMap → Forest) (templateKeys : List String)
    (body tag : String) : Forest → Except JsErr (Forest × Bool)
  | .nil => .ok (.nil, false)
  | .cons n rest =>
      match applyTagNodeP1 env templateKeys body tag n with
      | .error e => .error e
      | .ok rn =>
          match applyTagForestP1 env templateKeys body tag rest with
          | .error e => .error e
          | .ok rr => .ok (rn.1.append rr.1, rn.2 || rr.2)
end

/-- Result of one transform pass: the rewritten document, the updated
processed-tags set, the `(tag, compiled css)` pieces appended to the
pass's `template_css` in order, and the `did_transform` flag. -/
structure PassOut where
  doc : Forest
  processed : List String
  appends : List (String × String)
  transformed : Bool
deriving Repr, DecidableEq

/-- HTMLTagTemplates.transform of the part_001 draft (src/unnamed/part_001
lines 146-194), iterating the registry entries in order: rewrite all
matches of each tag, then append the tag's compiled stylesheet when the
front matter declares one, the tag matched, and the tag is not yet in
`processed_tags`. -/
def transformPassP1 (env : String → AttrMap → Forest) (templateKeys : List String)
    (preprocess : String → String) :
    List (String × TemplateSrc) → Forest → List String → Except JsErr PassOut
  | [], doc, processed => .ok ⟨doc, processed, [], false⟩
  | (tag, tpl) :: rest, doc, processed =>
      match applyTagForestP1 env templateKeys tpl.body tag doc with
      | .error e => .error e
      | .ok ab =>
          let hit := tpl.stylesheet.isSome && ab.2 && ! processed.contains tag
          let processed1 := if hit then processed ++ [tag] else processed
          match transformPassP1 env templateKeys preprocess rest ab.1 processed1 with
          | .error e => .error e
          | .ok r =>
              .ok ⟨r.doc, r.processed,
                   (if hit then [(tag, preprocess ((tpl.stylesheet).getD ("")))] else []) ++ r.appends,
                   ab.2 || r.transformed⟩

/-- State of the fixpoint loop when it exits. -/
structure LoopOut where
  doc : Forest
  processed : List String
  appends : List (String × String)
deriving Repr, DecidableEq

/-- The fixpoint loop of recursive_transform (src/unnamed/part_001 lines
115-123), given `fuel` as an upper bound on the number of passes
inspected: `.ok none` means the loop was still running after `fuel`
passes (the source has no bound), `.ok (some out)` that it exited. -/
def runP1 (env : String → AttrMap → Forest) (templateKeys : List String)
    (preprocess : String → String) (templates : List (String × TemplateSrc)) :
    Nat → Forest → List String → List (String × String) → Except JsErr (Option LoopOut)
  | 0, _, _, _ => .ok none
  | fuel+1, doc, processed, acc =>
      match transformPassP1 env templateKeys preprocess templates doc processed with
      | .error e => .error e
      | .ok r =>
          if r.transformed then
            runP1 env templateKeys preprocess templates fuel r.doc r.processed (acc ++ r.appends)
          else .ok (some ⟨r.doc, r.processed, acc ++ r.appends⟩)

/-- A registered template in src/src/index.ts: the TagTemplate class with
its nunjucks render (an oracle from the normalized usage attributes and
the serialized inner content — the `forward` closure passed along is
determined by the same attributes, see `forwardHelper`) and its
stylesheet path. -/
structure TagTemplate where
  render : AttrMap → String → Forest
  stylesheet_path : String

/-- The attribute normalization of src/src/index.ts lines 166-168:
`let attributes = $el.attr(); if (!attributes) attributes = \x7b\x7d;` —
an absent mapping (`undefined`) becomes the empty mapping. -/
def idx_attributes_norm : Option AttrMap → AttrMap
  | none => []
  | some a => a

/-- Processing of one matched usage element in the index.ts transform
(src/src/index.ts lines 162-208): normalize the attribute mapping, then
render the template with it; the expansion replaces the element. -/
def processOccurrenceIdx (tpl : TagTemplate) (attributesOpt : Option AttrMap)
    (content : String) : Forest :=
  tpl.render (idx_attributes_norm attributesOpt) content

/-- JS `Set.add`: a fresh member is appended, an existing one keeps its
insertion position. -/
def jsSetAdd (s : List String) (k : String) : List String :=
  if s.contains k then s else s ++ [k]

/-- JS `Set.delete`. -/
def jsSetDelete (s : List String) (k : String) : List String :=
  s.filter (fun x => x ≠ k)

/-- The key-expansion loop of the `forward` closure (src/src/index.ts
lines 178-194): with arguments, fold them left to right — `"*"` adds
every usage-attribute key, `"!k"` deletes `k` from the set accumulated
so far, anything else adds that key; with no arguments, take all
usage-attribute keys. -/
def expandKeys (attributes : AttrMap) (keys : List String) : List String :=
  if keys.length > 0 then
    keys.foldl (fun acc key =>
      if key = "*" then attributes.foldl (fun a p => jsSetAdd a p.1) acc
      else if jsStartsBang key then jsSetDelete acc (jsDropOne key)
      else jsSetAdd acc key) []
  else
    attributes.foldl (fun a p => jsSetAdd a p.1) []

/-- The `forward` template helper (src/src/index.ts lines 174-204):
serialize the expanded keys that are present in the usage attributes as
unquoted `key=value` pairs, space-joined. -/
def forwardHelper (attributes : AttrMap) (keys : List String) : String :=
  joinSep (" ")
    ((expandKeys attributes keys).filterMap
      (fun key => (jsGet attributes key).map (fun v => key ++ "=" ++ v)))

mutual
/-- `$(tag).each(...)` of the index.ts transform over one node, in
document order: a matched element is replaced by its rendered expansion
(not re-matched within this traversal), an unmatched element keeps its
place and its children are traversed. -/
def applyTagNodeIdx (tpl : TagTemplate) (tag : String) : Node → Forest × Bool
  | .text s => (.cons (.text s) .nil, false)
  | .elem name attribs children =>
      if name = tag then
        (processOccurrenceIdx tpl (some attribs) (serializeForest children), true)
      else
        let rc := applyTagForestIdx tpl tag children
        (.cons (.elem name attribs rc.1) .nil, rc.2)
/-- `$(tag).each(...)` of the index.ts transform over a forest. -/
def applyTagForestIdx (tpl : TagTemplate) (tag : String) : Forest → Forest × Bool
  | .nil => (.nil, false)
  | .cons n rest =>
      let rn := applyTagNodeIdx tpl tag n
      let rr := applyTagForestIdx tpl tag rest
      (rn.1.append rr.1, rn.2 || rr.2)
end

/-- HTMLTagTemplates.transform of src/src/index.ts (lines 155-223),
iterating registry entries in order: rewrite all matches of each tag,
then — when the tag matched and is not yet in `processed_tags` — append
the preprocessed stylesheet to the pass's css and add the tag to
`processed_tags`. -/
def transformPassIdx (preprocess : String → String) :
    List (String × TagTemplate) → Forest → List String → PassOut
  | [], doc, processed => ⟨doc, processed, [], false⟩
  | (tag, tpl) :: rest, doc, processed =>
      let ab := applyTagForestIdx tpl tag doc
      let hit := ab.2 && ! processed.contains tag
      let processed1 := if hit then processed ++ [tag] else processed
      let r := transformPassIdx preprocess rest ab.1 processed1
      ⟨r.doc, r.processed,
       (if hit then [(tag, preprocess tpl.stylesheet_path)] else []) ++ r.appends,
       ab.2 || r.transformed⟩

/-- The fixpoint loop of recursive_template_transform (src/src/index.ts
lines 124-132), with `fuel` bounding the number of passes inspected:
`none` means the loop was still running after `fuel` passes (the source
has no bound), `some out` that it exited within them. -/
def runLoopIdx (preprocess : String → String) (templates : List (String × TagTemplate)) :
    Nat → Forest → List String → List (String × String) → Option LoopOut
  | 0, _, _, _ => none
  | fuel+1, doc, processed, acc =>
      let r := transformPassIdx preprocess templates doc processed
      if r.transformed then
        runLoopIdx preprocess templates fuel r.doc r.processed (acc ++ r.appends)
      else some ⟨r.doc, r.processed, acc ++ r.appends⟩

mutual
/-- Children of the first `head` element in document order, over a node
(the selection `$("head")`). -/
def nodeFirstHead? : Node → Option Forest
  | .text _ => none
  | .elem n _ c => if n = "head" then some c else forestFirstHead? c
/-- Children of the first `head` element in document order. -/
def forestFirstHead? : Forest → Option Forest
  | .nil => none
  | .cons n rest =>
      match nodeFirstHead? n with
      | some c => some c
      | none => forestFirstHead? rest
end

mutual
/-- Rewrite the children of the first `head` element (document order)
with `f`; the flag reports whether a head was found. -/
def updateHeadNode (f : Forest → Forest) : Node → Node × Bool
  | .text s => (.text s, false)
  | .elem n a c =>
      if n = "head" then (.elem n a (f c), true)
      else
        let rc := updateHeadForest f c
        (.elem n a rc.1, rc.2)
/-- Rewrite the children of the first `head` element in a forest. -/
def updateHeadForest (f : Forest → Forest) : Forest → Forest × Bool
  | .nil => (.nil, false)
  | .cons n rest =>
      let rn := updateHeadNode f n
      if rn.2 then (.cons rn.1 rest, true)
      else
        let rr := updateHeadForest f rest
        (.cons n rr.1, rr.2)
end

/-- Number of `style` elements among a head's element children
(`$("head").children("style").length`). -/
def styleCount : Forest → Nat
  | .nil => 0
  | .cons (.elem n _ _) rest => (if n = "style" then 1 else 0) + styleCount rest
  | .cons (.text _) rest => styleCount rest

/-- `$(styleTag).html(existing + css)` on the first style child: its
existing inner content is serialized (`$(styleTag).html()`, a string —
never `null` for a present element) and the accumulated css appended
(src/src/index.ts lines 146-150). -/
def setFirstStyleContent (css : String) : Forest → Forest
  | .nil => .nil
  | .cons (.elem n a c) rest =>
      if n = "style" then
        .cons (.elem n a (.cons (.text (serializeForest c ++ css)) .nil)) rest
      else .cons (.elem n a c) (setFirstStyleContent css rest)
  | .cons (.text s) rest => .cons (.text s) (setFirstStyleContent css rest)

/-- The css-injection tail of recursive_template_transform
(src/src/index.ts lines 134-152, identical in src/unnamed/part_001 lines
125-143).  When the head has no style child the source appends a new
`<style>` element to the in-memory document and then executes a bare
`return;` — the function's value is `undefined`, modelled as `none`.
When a style child exists, the css is appended after its existing
content and `$.html()` is returned. -/
def injectCss (doc : Forest) (template_css : String) : Option String :=
  let headChildren := (forestFirstHead? doc).getD .nil
  if styleCount headChildren = 0 then none
  else some (serializeForest (updateHeadForest (setFirstStyleContent template_css) doc).1)

/-- recursive_template_transform of src/src/index.ts (lines 120-153):
run transform passes to a fixpoint (within `fuel` passes), then inject
the accumulated css into the head.  `none` means the loop had not
finished within `fuel` passes; `some r` is the function's return value
(`r = none` is JS `undefined`). -/
def recursive_template_transform_model (preprocess : String → String)
    (templates : List (String × TagTemplate)) (fuel : Nat) (doc : Forest) :
    Option (Option String) :=
  match runLoopIdx preprocess templates fuel doc [] [] with
  | none => none
  | some out => some (injectCss out.doc (String.join (out.appends.map Prod.snd)))

/-- Tag-name membership in the index.ts registry. -/
def isRegistered (templates : List (String × TagTemplate)) (n : String) : Bool :=
  (jsGet templates n).isSome

/-- A load-normalized document whose head holds no style element. -/
def exDocNoStyle : Forest :=
  .cons (.elem ("html") []
    (.cons (.elem ("head") [] .nil)
      (.cons (.elem ("body") [] .nil) .nil))) .nil

/-- A load-normalized document whose head holds a style element with
existing text content `old`. -/
def exDocWithStyle : Forest :=
  .cons (.elem ("html") []
    (.cons (.elem ("head") []
        (.cons (.elem ("style") [] (.cons (.text ("old")) .nil)) .nil))
      (.cons (.elem ("body") [] .nil) .nil))) .nil

/-- A renderer oracle whose output has two top-level elements, whatever
the variables are (a template body with two sibling roots). -/
def envTwoRoots : String → AttrMap → Forest :=
  fun _ _ => .cons (.elem ("div") [] .nil) (.cons (.elem ("div") [] .nil) .nil)

/-- A renderer oracle producing a bare `<div>` root. -/
def envDivRoot : String → AttrMap → Forest :=
  fun _ _ => .cons (.elem ("div") [] .nil) .nil

/-- A template source with a multi-root body, for exercising the
single-root validation. -/
def twoRootsSrc : TemplateSrc := ⟨none, none, "tworoots"⟩

/-- A registered index.ts template that expands to a plain `<div>`. -/
def divCardTemplate : TagTemplate :=
  ⟨fun _ _ => .cons (.elem ("div") [] .nil) .nil, "card.css"⟩

/-- A one-entry index.ts registry. -/
def exRegistryIdx : List (String × TagTemplate) := [("card", divCardTemplate)]

/-- A document using the `card` tag twice. -/
def exDocTwoCards : Forest :=
  .cons (.elem ("card") [] .nil) (.cons (.elem ("card") [] .nil) .nil)

/-- A template source registered under front-matter tag `Card`. -/
def cardSrc : TemplateSrc := ⟨some ("Card"), none, "cardbody"⟩

/-- A second template source also claiming tag `Card`. -/
def cardSrc2 : TemplateSrc := ⟨some ("Card"), none, "otherbody"⟩

/-- A template source with no front-matter tag. -/
def untaggedSrc : TemplateSrc := ⟨none, none, "plainbody"⟩


/-- The first `n` iterations of the index.ts fixpoint loop, regardless of
the stop condition (once a pass reports no rewrite it leaves the
document and `processed_tags` unchanged, so iterating past the stop is
harmless); used to name the document state at a given pass. -/
def iterPassIdx (preprocess : String → String) (templates : List (String × TagTemplate)) :
    Nat → Forest × List String → Forest × List String
  | 0, s => s
  | n+1, s =>
      let r := transformPassIdx preprocess templates s.1 s.2
      iterPassIdx preprocess templates n (r.doc, r.processed)

/-! ## Helper lemmas -/

theorem forest_mutual_ind (P : Node → Prop) (Q : Forest → Prop)
    (ht : ∀ s, P (.text s))
    (he : ∀ n a c, Q c → P (.elem n a c))
    (hn : Q .nil)
    (hc : ∀ n f, P n → Q f → Q (.cons n f)) :
    (∀ n, P n) ∧ (∀ f, Q f) :=
  ⟨fun n => Node.rec (fun n a c hq => he n a c hq) ht hn (fun nd f hp hq => hc nd f hp hq) n,
   fun f => Forest.rec (fun n a c hq => he n a c hq) ht hn (fun nd f hp hq => hc nd f hp hq) f⟩

theorem forest_ind (Q : Forest → Prop) (hn : Q .nil) (hc : ∀ n f, Q f → Q (.cons n f)) :
    ∀ f, Q f :=
  (forest_mutual_ind (fun _ => True) Q (fun _ => trivial) (fun _ _ _ _ => trivial) hn
    (fun n f _ hq => hc n f hq)).2

theorem jsGet_map_overwrite_ne (m : AttrMap) (k v a : String) (hka : ¬ a = k) :
    jsGet (m.map (fun p => if p.1 = k then (k, v) else p)) a = jsGet m a := by
  induction m with
  | nil => rfl
  | cons p rest ih =>
      obtain ⟨pk, pv⟩ := p
      simp only [List.map_cons]
      by_cases hp : pk = k
      · subst hp
        rw [show (if ((pk, pv) : String × String).1 = pk then (pk, v) else (pk, pv)) = (pk, v) from by simp]
        have hpa : ¬ pk = a := fun h => hka (h.symm)
        simp [jsGet, hpa, ih]
      · rw [show (if ((pk, pv) : String × String).1 = k then (k, v) else (pk, pv)) = (pk, pv) from by simp [hp]]
        by_cases hpa : pk = a <;> simp [jsGet, hpa, ih]

theorem jsGet_append_ne (m : AttrMap) (k v a : String) (hka : ¬ k = a) :
    jsGet (m ++ [(k, v)]) a = jsGet m a := by
  induction m with
  | nil => simp [jsGet, hka]
  | cons p rest ih =>
      obtain ⟨pk, pv⟩ := p
      by_cases hpa : pk = a <;> simp [jsGet, hpa, ih]

theorem jsSet_jsGet_ne (m : AttrMap) (k v a : String) (hka : ¬ a = k) :
    jsGet (jsSet m k v) a = jsGet m a := by
  unfold jsSet
  by_cases h : (jsGet m k).isSome <;>
    simp [h, jsGet_map_overwrite_ne m k v a hka,
      jsGet_append_ne m k v a (fun hh => hka (hh.symm))]

theorem renderVariables_jsGet_ne (m : AttrMap) (c a : String) (ha : ¬ a = "content") :
    jsGet (renderVariables m c) a = jsGet m a :=
  jsSet_jsGet_ne m ("content") c a ha

theorem forestAllElems_append (p : String → Bool) (f g : Forest) :
    forestAllElems p (f.append g) = (forestAllElems p f && forestAllElems p g) := by
  induction f using forest_ind with
  | hn => simp [Forest.append, forestAllElems]
  | hc n rest ih => simp [Forest.append, forestAllElems, ih, Bool.and_assoc]

theorem forestAllElems_imp (p q : String → Bool) (h : ∀ n, p n = true → q n = true) :
    (∀ n, nodeAllElems p n = true → nodeAllElems q n = true) ∧
    (∀ f, forestAllElems p f = true → forestAllElems q f = true) := by
  apply forest_mutual_ind
  · intro s _; rfl
  · intro n a c ih hp
    simp [nodeAllElems] at hp ⊢
    exact ⟨h n hp.1, ih hp.2⟩
  · intro _; rfl
  · intro n f ihn ihf hp
    simp [forestAllElems] at hp ⊢
    exact ⟨ihn hp.1, ihf hp.2⟩

theorem applyTagIdx_no_match (tpl : TagTemplate) (tag : String) :
    (∀ n, nodeAllElems (fun m => !(m == tag)) n = true →
        applyTagNodeIdx tpl tag n = (.cons n .nil, false)) ∧
    (∀ f, forestAllElems (fun m => !(m == tag)) f = true →
        applyTagForestIdx tpl tag f = (f, false)) := by
  apply forest_mutual_ind
  · intro s _; rfl
  · intro n a c ih h
    simp [nodeAllElems] at h
    obtain ⟨h1, h2⟩ := h
    simp [applyTagNodeIdx, h1, ih h2]
  · intro _; rfl
  · intro n f ihn ihf h
    simp [forestAllElems] at h
    obtain ⟨h1, h2⟩ := h
    simp [applyTagForestIdx, ihn h1, ihf h2, Forest.append]

theorem applyTagIdx_unmatched (tpl : TagTemplate) (tag : String) :
    (∀ n, (applyTagNodeIdx tpl tag n).2 = false →
        (applyTagNodeIdx tpl tag n).1 = .cons n .nil) ∧
    (∀ f, (applyTagForestIdx tpl tag f).2 = false →
        (applyTagForestIdx tpl tag f).1 = f) := by
  apply forest_mutual_ind
  · intro s _; rfl
  · intro n a c ih h
    by_cases hn : n = tag
    · subst hn; simp [applyTagNodeIdx] at h
    · simp [applyTagNodeIdx, hn] at h ⊢
      exact ih h
  · intro _; rfl
  · intro n f ihn ihf h
    simp [applyTagForestIdx] at h ⊢
    rw [ihn h.1, ihf h.2]
    rfl

theorem applyTagIdx_allElems (tpl : TagTemplate) (tag : String) (p q : String → Bool)
    (hrend : ∀ attrs content, forestAllElems p (tpl.render attrs content) = true) :
    (∀ n, nodeAllElems q n = true →
        forestAllElems (fun m => ((!(m == tag)) && q m) || (q tag && p m))
          (applyTagNodeIdx tpl tag n).1 = true) ∧
    (∀ f, forestAllElems q f = true →
        forestAllElems (fun m => ((!(m == tag)) && q m) || (q tag && p m))
          (applyTagForestIdx tpl tag f).1 = true) := by
  apply forest_mutual_ind
  · intro s _; rfl
  · intro n a c ih hq
    simp [nodeAllElems] at hq
    obtain ⟨h1, h2⟩ := hq
    by_cases hn : n = tag
    · subst hn
      simp only [applyTagNodeIdx, if_pos rfl, processOccurrenceIdx, idx_attributes_norm]
      refine (forestAllElems_imp p _ (fun m hm => ?_)).2 _ (hrend a (serializeForest c))
      simp [h1, hm]
    · simp only [applyTagNodeIdx, if_neg hn]
      simp [forestAllElems, nodeAllElems, hn, h1]
      exact ih h2
  · intro _; rfl
  · intro n f ihn ihf hq
    simp [forestAllElems] at hq
    obtain ⟨h1, h2⟩ := hq
    simp [applyTagForestIdx, forestAllElems_append]
    exact ⟨ihn h1, ihf h2⟩

theorem jsGet_isSome_mem {β : Type} (l : List (String × β)) (n : String)
    (h : (jsGet l n).isSome = true) : ∃ b, (n, b) ∈ l := by
  induction l with
  | nil => simp [jsGet] at h
  | cons p rest ih =>
      obtain ⟨pk, pv⟩ := p
      by_cases hp : pk = n
      · subst hp; exact ⟨pv, List.mem_cons_self _ _⟩
      · simp [jsGet, hp] at h
        obtain ⟨b, hb⟩ := ih h
        exact ⟨b, List.mem_cons_of_mem _ hb⟩

theorem mem_jsGet_isSome {β : Type} (l : List (String × β)) (n : String) (b : β)
    (h : (n, b) ∈ l) : (jsGet l n).isSome = true := by
  induction l with
  | nil => simp at h
  | cons p rest ih =>
      obtain ⟨pk, pv⟩ := p
      rcases List.mem_cons.mp h with h1 | h2
      · cases h1; simp [jsGet]
      · by_cases hp : pk = n <;> simp [jsGet, hp, ih h2]

theorem transformPassIdx_cons_true (preprocess : String → String)
    (tag : String) (tpl : TagTemplate) (rest : List (String × TagTemplate))
    (doc : Forest) (processed : List String)
    (hb : ((applyTagForestIdx tpl tag doc).2 && ! processed.contains tag) = true) :
    transformPassIdx preprocess ((tag, tpl) :: rest) doc processed =
      ⟨(transformPassIdx preprocess rest (applyTagForestIdx tpl tag doc).1 (processed ++ [tag])).doc,
       (transformPassIdx preprocess rest (applyTagForestIdx tpl tag doc).1 (processed ++ [tag])).processed,
       (tag, preprocess tpl.stylesheet_path) ::
         (transformPassIdx preprocess rest (applyTagForestIdx tpl tag doc).1 (processed ++ [tag])).appends,
       (applyTagForestIdx tpl tag doc).2 ||
         (transformPassIdx preprocess rest (applyTagForestIdx tpl tag doc).1 (processed ++ [tag])).transformed⟩ := by
  have h1 : (applyTagForestIdx tpl tag doc).2 = true := ((Bool.and_eq_true _ _).mp hb).1
  have h2 : ¬ tag ∈ processed := by
    have := ((Bool.and_eq_true _ _).mp hb).2
    simpa using this
  simp [transformPassIdx, h1, h2]

theorem transformPassIdx_cons_false (preprocess : String → String)
    (tag : String) (tpl : TagTemplate) (rest : List (String × TagTemplate))
    (doc : Forest) (processed : List String)
    (hb : ((applyTagForestIdx tpl tag doc).2 && ! processed.contains tag) = false) :
    transformPassIdx preprocess ((tag, tpl) :: rest) doc processed =
      ⟨(transformPassIdx preprocess rest (applyTagForestIdx tpl tag doc).1 processed).doc,
       (transformPassIdx preprocess rest (applyTagForestIdx tpl tag doc).1 processed).processed,
       (transformPassIdx preprocess rest (applyTagForestIdx tpl tag doc).1 processed).appends,
       (applyTagForestIdx tpl tag doc).2 ||
         (transformPassIdx preprocess rest (applyTagForestIdx tpl tag doc).1 processed).transformed⟩ := by
  have hcond : ¬ ((applyTagForestIdx tpl tag doc).2 = true ∧ ¬ tag ∈ processed) := by
    intro hc
    have : ((applyTagForestIdx tpl tag doc).2 && ! processed.contains tag) = true := by
      simp [hc.1, hc.2]
    rw [this] at hb
    exact Bool.true_eq_false.mp hb
  simp [transformPassIdx, hcond]

theorem transformPassIdx_processed (preprocess : String → String) :
    ∀ (sub : List (String × TagTemplate)) (doc : Forest) (processed : List String),
      (transformPassIdx preprocess sub doc processed).processed
        = processed ++ ((transformPassIdx preprocess sub doc processed).appends.map Prod.fst)
      ∧ (∀ t ∈ (transformPassIdx preprocess sub doc processed).appends.map Prod.fst,
          ¬ t ∈ processed)
      ∧ (processed.Nodup → (transformPassIdx preprocess sub doc processed).processed.Nodup) := by
  intro sub
  induction sub with
  | nil => intro doc processed; simp [transformPassIdx]
  | cons e rest ih =>
      obtain ⟨tag, tpl⟩ := e
      intro doc processed
      cases hb : ((applyTagForestIdx tpl tag doc).2 && ! processed.contains tag) with
      | false =>
          rw [transformPassIdx_cons_false preprocess tag tpl rest doc processed hb]
          exact ih (applyTagForestIdx tpl tag doc).1 processed
      | true =>
          have hnc : ¬ tag ∈ processed := by
            have := ((Bool.and_eq_true _ _).mp hb).2
            simpa using this
          obtain ⟨ih1, ih2, ih3⟩ := ih (applyTagForestIdx tpl tag doc).1 (processed ++ [tag])
          rw [transformPassIdx_cons_true preprocess tag tpl rest doc processed hb]
          refine ⟨?_, ?_, ?_⟩
          · simp only [List.map_cons]
            rw [ih1]
            simp
          · intro t ht
            simp only [List.map_cons, List.mem_cons] at ht
            rcases ht with h1 | h2
            · subst h1; exact hnc
            · intro hmem
              exact (ih2 t h2) (by simp [hmem])
          · intro hnd
            refine ih3 (List.Nodup.append hnd (List.nodup_singleton _) ?_)
            intro x hx
            simp only [List.mem_singleton]
            intro hxe
            subst hxe
            exact hnc hx

theorem transformPassIdx_append (preprocess : String → String)
    (s1 s2 : List (String × TagTemplate)) :
    ∀ (doc : Forest) (processed : List String),
      transformPassIdx preprocess (s1 ++ s2) doc processed =
        ⟨(transformPassIdx preprocess s2 (transformPassIdx preprocess s1 doc processed).doc
            (transformPassIdx preprocess s1 doc processed).processed).doc,
         (transformPassIdx preprocess s2 (transformPassIdx preprocess s1 doc processed).doc
            (transformPassIdx preprocess s1 doc processed).processed).processed,
         (transformPassIdx preprocess s1 doc processed).appends ++
           (transformPassIdx preprocess s2 (transformPassIdx preprocess s1 doc processed).doc
              (transformPassIdx preprocess s1 doc processed).processed).appends,
         (transformPassIdx preprocess s1 doc processed).transformed ||
           (transformPassIdx preprocess s2 (transformPassIdx preprocess s1 doc processed).doc
              (transformPassIdx preprocess s1 doc processed).processed).transformed⟩ := by
  induction s1 with
  | nil => intro doc processed; simp [transformPassIdx]
  | cons e rest ih =>
      obtain ⟨tag, tpl⟩ := e
      intro doc processed
      cases hb : ((applyTagForestIdx tpl tag doc).2 && ! processed.contains tag) with
      | false =>
          rw [List.cons_append,
            transformPassIdx_cons_false preprocess tag tpl (rest ++ s2) doc processed hb,
            transformPassIdx_cons_false preprocess tag tpl rest doc processed hb,
            ih (applyTagForestIdx tpl tag doc).1 processed]
          simp [Bool.or_assoc]
      | true =>
          rw [List.cons_append,
            transformPassIdx_cons_true preprocess tag tpl (rest ++ s2) doc processed hb,
            transformPassIdx_cons_true preprocess tag tpl rest doc processed hb,
            ih (applyTagForestIdx tpl tag doc).1 (processed ++ [tag])]
          simp [Bool.or_assoc]

theorem transformPassIdx_untransformed (preprocess : String → String) :
    ∀ (sub : List (String × TagTemplate)) (doc : Forest) (processed : List String),
      (transformPassIdx preprocess sub doc processed).transformed = false →
      transformPassIdx preprocess sub doc processed = ⟨doc, processed, [], false⟩ := by
  intro sub
  induction sub with
  | nil => intro doc processed _; simp [transformPassIdx]
  | cons e rest ih =>
      obtain ⟨tag, tpl⟩ := e
      intro doc processed h
      cases hb : ((applyTagForestIdx tpl tag doc).2 && ! processed.contains tag) with
      | true =>
          rw [transformPassIdx_cons_true preprocess tag tpl rest doc processed hb] at h
          simp only at h
          rw [((Bool.and_eq_true _ _).mp hb).1] at h
          simp at h
      | false =>
          rw [transformPassIdx_cons_false preprocess tag tpl rest doc processed hb] at h ⊢
          simp only at h
          have hor := Bool.or_eq_false_iff.mp h
          have hdoc : (applyTagForestIdx tpl tag doc).1 = doc :=
            (applyTagIdx_unmatched tpl tag).2 doc hor.1
          rw [hdoc] at h hor ⊢
          rw [ih doc processed hor.2]
          simp [hor.1]

theorem transformPassIdx_no_matches (preprocess : String → String) :
    ∀ (sub : List (String × TagTemplate)) (doc : Forest) (processed : List String),
      (∀ tg tpl, (tg, tpl) ∈ sub → forestAllElems (fun n => !(n == tg)) doc = true) →
      transformPassIdx preprocess sub doc processed = ⟨doc, processed, [], false⟩ := by
  intro sub
  induction sub with
  | nil => intro doc processed _; simp [transformPassIdx]
  | cons e rest ih =>
      obtain ⟨tag, tpl⟩ := e
      intro doc processed h
      have hap : applyTagForestIdx tpl tag doc = (doc, false) :=
        (applyTagIdx_no_match tpl tag).2 doc (h tag tpl (List.mem_cons_self _ _))
      have hb : ((applyTagForestIdx tpl tag doc).2 && ! processed.contains tag) = false := by
        rw [hap]
        rfl
      rw [transformPassIdx_cons_false preprocess tag tpl rest doc processed hb, hap]
      rw [ih doc processed (fun tg tpl2 hm => h tg tpl2 (List.mem_cons_of_mem _ hm))]
      simp [hap]

theorem transformPassIdx_rank (preprocess : String → String) (isReg : String → Bool)
    (r : String → Nat) (m : Nat) :
    ∀ (sub : List (String × TagTemplate)) (doc : Forest) (processed : List String),
      (∀ tg tpl, (tg, tpl) ∈ sub → isReg tg = true ∧
        ∀ attrs content, forestAllElems (fun n => (!(isReg n)) || decide (r n < r tg))
          (tpl.render attrs content) = true) →
      forestAllElems (fun n => (!(isReg n)) ||
          (if (sub.map Prod.fst).contains n then decide (r n ≤ m) else decide (r n ≤ m - 1)))
        doc = true →
      forestAllElems (fun n => (!(isReg n)) || decide (r n ≤ m - 1))
        (transformPassIdx preprocess sub doc processed).doc = true := by
  intro sub
  induction sub with
  | nil =>
      intro doc processed _ hdoc
      simp only [transformPassIdx]
      refine (forestAllElems_imp _ _ (fun n hn => ?_)).2 doc hdoc
      simpa using hn
  | cons e rest ih =>
      obtain ⟨tag, tpl⟩ := e
      intro doc processed hsub hdoc
      have htag := hsub tag tpl (List.mem_cons_self _ _)
      have hstep := (applyTagIdx_allElems tpl tag
          (fun n => (!(isReg n)) || decide (r n < r tag))
          (fun n => (!(isReg n)) ||
            (if (((tag, tpl) :: rest).map Prod.fst).contains n then decide (r n ≤ m)
             else decide (r n ≤ m - 1)))
          htag.2).2 doc hdoc
      have hnext : forestAllElems (fun n => (!(isReg n)) ||
          (if (rest.map Prod.fst).contains n then decide (r n ≤ m) else decide (r n ≤ m - 1)))
          (applyTagForestIdx tpl tag doc).1 = true := by
        refine (forestAllElems_imp _ _ (fun n hn => ?_)).2 _ hstep
        by_cases hregn : isReg n = true
        · simp only [hregn, Bool.not_true, Bool.false_or]
          simp only [Bool.or_eq_true, Bool.and_eq_true] at hn
          rcases hn with ⟨hne, hq⟩ | ⟨hqt, hp⟩
          · have hne2 : ¬ n = tag := by simpa using hne
            have hbeq : (n == tag) = false := by simpa using hne2
            rcases hq with hq1 | hq2
            · rw [hregn] at hq1; simp at hq1
            · have hconsn : ((((tag, tpl) :: rest).map Prod.fst).contains n)
                  = ((rest.map Prod.fst).contains n) := by
                simp only [List.map_cons, List.contains_cons]
                rw [hbeq, Bool.false_or]
              rw [hconsn] at hq2
              exact hq2
          · rcases hqt with hqt1 | hqt2
            · rw [htag.1] at hqt1; simp at hqt1
            · have hrtag : r tag ≤ m := by
                rw [if_pos (show ((((tag, tpl) :: rest).map Prod.fst).contains tag) = true from by
                  simp only [List.map_cons, List.contains_cons, beq_self_eq_true, Bool.true_or])] at hqt2
                simpa using hqt2
              rcases hp with hp1 | hp2
              · rw [hregn] at hp1; simp at hp1
              · have hrn : r n < r tag := by simpa using hp2
                by_cases hcr : ((rest.map Prod.fst).contains n) = true
                · rw [if_pos hcr]
                  simp only [decide_eq_true_eq]
                  omega
                · rw [if_neg hcr]
                  simp only [decide_eq_true_eq]
                  omega
        · have hf : isReg n = false := by simpa using hregn
          simp [hf]
      cases hb : ((applyTagForestIdx tpl tag doc).2 && ! processed.contains tag) with
      | true =>
          rw [transformPassIdx_cons_true preprocess tag tpl rest doc processed hb]
          exact ih (applyTagForestIdx tpl tag doc).1 (processed ++ [tag])
            (fun tg tpl2 hm => hsub tg tpl2 (List.mem_cons_of_mem _ hm)) hnext
      | false =>
          rw [transformPassIdx_cons_false preprocess tag tpl rest doc processed hb]
          exact ih (applyTagForestIdx tpl tag doc).1 processed
            (fun tg tpl2 hm => hsub tg tpl2 (List.mem_cons_of_mem _ hm)) hnext

theorem runLoopIdx_succ_true (preprocess : String → String)
    (templates : List (String × TagTemplate)) (fuel : Nat) (doc : Forest)
    (processed : List String) (acc : List (String × String))
    (h : (transformPassIdx preprocess templates doc processed).transformed = true) :
    runLoopIdx preprocess templates (fuel + 1) doc processed acc =
      runLoopIdx preprocess templates fuel
        (transformPassIdx preprocess templates doc processed).doc
        (transformPassIdx preprocess templates doc processed).processed
        (acc ++ (transformPassIdx preprocess templates doc processed).appends) := by
  simp [runLoopIdx, h]

theorem runLoopIdx_succ_false (preprocess : String → String)
    (templates : List (String × TagTemplate)) (fuel : Nat) (doc : Forest)
    (processed : List String) (acc : List (String × String))
    (h : (transformPassIdx preprocess templates doc processed).transformed = false) :
    runLoopIdx preprocess templates (fuel + 1) doc processed acc =
      some ⟨(transformPassIdx preprocess templates doc processed).doc,
            (transformPassIdx preprocess templates doc processed).processed,
            acc ++ (transformPassIdx preprocess templates doc processed).appends⟩ := by
  simp [runLoopIdx, h]

theorem runLoopIdx_appends (preprocess : String → String)
    (templates : List (String × TagTemplate)) :
    ∀ (fuel : Nat) (doc : Forest) (processed : List String)
      (acc : List (String × String)) (out : LoopOut),
      runLoopIdx preprocess templates fuel doc processed acc = some out →
      ∃ extra, out.appends = acc ++ extra
        ∧ out.processed = processed ++ extra.map Prod.fst
        ∧ (processed.Nodup → out.processed.Nodup) := by
  intro fuel
  induction fuel with
  | zero => intro doc processed acc out h; simp [runLoopIdx] at h
  | succ fuel ih =>
      intro doc processed acc out h
      obtain ⟨hp1, hp2, hp3⟩ := transformPassIdx_processed preprocess templates doc processed
      cases ht : (transformPassIdx preprocess templates doc processed).transformed with
      | true =>
          rw [runLoopIdx_succ_true preprocess templates fuel doc processed acc ht] at h
          obtain ⟨extra2, he1, he2, he3⟩ := ih _ _ _ _ h
          refine ⟨(transformPassIdx preprocess templates doc processed).appends ++ extra2,
            ?_, ?_, ?_⟩
          · rw [he1, List.append_assoc]
          · rw [he2, hp1, List.map_append, List.append_assoc]
          · intro hnd; exact he3 (hp3 hnd)
      | false =>
          rw [runLoopIdx_succ_false preprocess templates fuel doc processed acc ht] at h
          cases h
          refine ⟨(transformPassIdx preprocess templates doc processed).appends, rfl, hp1, hp3⟩

theorem iterPassIdx_fix (preprocess : String → String)
    (templates : List (String × TagTemplate)) (doc : Forest) (processed : List String)
    (h : (transformPassIdx preprocess templates doc processed).transformed = false) :
    ∀ k, iterPassIdx preprocess templates k (doc, processed) = (doc, processed) := by
  intro k
  induction k with
  | zero => rfl
  | succ k ih =>
      have hu := transformPassIdx_untransformed preprocess templates doc processed h
      simp only [iterPassIdx, hu]
      exact ih

theorem runLoopIdx_iter_processed (preprocess : String → String)
    (templates : List (String × TagTemplate)) :
    ∀ (k fuel : Nat) (doc : Forest) (processed : List String)
      (acc : List (String × String)) (out : LoopOut),
      runLoopIdx preprocess templates fuel doc processed acc = some out →
      ∀ t, t ∈ (iterPassIdx preprocess templates k (doc, processed)).2 → t ∈ out.processed := by
  intro k
  induction k with
  | zero =>
      intro fuel doc processed acc out h t ht
      obtain ⟨extra, -, he2, -⟩ := runLoopIdx_appends preprocess templates fuel doc processed acc out h
      rw [he2]
      exact List.mem_append_left _ ht
  | succ k ih =>
      intro fuel doc processed acc out h t ht
      cases fuel with
      | zero => simp [runLoopIdx] at h
      | succ fuel =>
          cases hpt : (transformPassIdx preprocess templates doc processed).transformed with
          | true =>
              rw [runLoopIdx_succ_true preprocess templates fuel doc processed acc hpt] at h
              simp only [iterPassIdx] at ht
              exact ih fuel _ _ _ out h t ht
          | false =>
              rw [runLoopIdx_succ_false preprocess templates fuel doc processed acc hpt] at h
              have hu := transformPassIdx_untransformed preprocess templates doc processed hpt
              simp only [iterPassIdx, hu] at ht
              rw [iterPassIdx_fix preprocess templates doc processed hpt k] at ht
              cases h
              simp only [hu]
              exact ht

theorem transformPassIdx_matched_mem (preprocess : String → String)
    (s1 s2 : List (String × TagTemplate)) (tag : String) (tpl : TagTemplate)
    (doc : Forest) (processed : List String)
    (h : (applyTagForestIdx tpl tag (transformPassIdx preprocess s1 doc processed).doc).2 = true) :
    tag ∈ (transformPassIdx preprocess (s1 ++ (tag, tpl) :: s2) doc processed).processed := by
  rw [transformPassIdx_append preprocess s1 ((tag, tpl) :: s2) doc processed]
  simp only []
  obtain ⟨hq1, -, -⟩ := transformPassIdx_processed preprocess ((tag, tpl) :: s2)
    (transformPassIdx preprocess s1 doc processed).doc
    (transformPassIdx preprocess s1 doc processed).processed
  by_cases hc : tag ∈ (transformPassIdx preprocess s1 doc processed).processed
  · rw [hq1]
    exact List.mem_append_left _ hc
  · have hb : ((applyTagForestIdx tpl tag (transformPassIdx preprocess s1 doc processed).doc).2
        && ! (transformPassIdx preprocess s1 doc processed).processed.contains tag) = true := by
      simp [h, hc]
    rw [transformPassIdx_cons_true preprocess tag tpl s2 _ _ hb]
    simp only []
    obtain ⟨hq2, -, -⟩ := transformPassIdx_processed preprocess s2
      (applyTagForestIdx tpl tag (transformPassIdx preprocess s1 doc processed).doc).1
      ((transformPassIdx preprocess s1 doc processed).processed ++ [tag])
    rw [hq2]
    refine List.mem_append_left _ (List.mem_append_right _ ?_)
    simp

theorem applyTagP1_clean (env : String → AttrMap → Forest) (templateKeys : List String)
    (body tag : String) :
    (∀ n, nodeAllElems (fun m => !(m == tag)) n = true →
        applyTagNodeP1 env templateKeys body tag n = .ok (.cons n .nil, false)) ∧
    (∀ f, forestAllElems (fun m => !(m == tag)) f = true →
        applyTagForestP1 env templateKeys body tag f = .ok (f, false)) := by
  apply forest_mutual_ind
  · intro s _; rfl
  · intro n a c ih h
    simp [nodeAllElems] at h
    simp [applyTagNodeP1, h.1, ih h.2]
  · intro _; rfl
  · intro n f ihn ihf h
    simp [forestAllElems] at h
    simp [applyTagForestP1, ihn h.1, ihf h.2, Forest.append]

theorem applyTagForestP1_append_clean (env : String → AttrMap → Forest)
    (templateKeys : List String) (body tag : String) (g : Forest) :
    ∀ (pre : Forest), forestAllElems (fun m => !(m == tag)) pre = true →
      applyTagForestP1 env templateKeys body tag (pre.append g)
        = (applyTagForestP1 env templateKeys body tag g).map (fun r => (pre.append r.1, r.2)) := by
  intro pre
  induction pre using forest_ind with
  | hn =>
      intro _
      cases hg : applyTagForestP1 env templateKeys body tag g with
      | error e => simp [Forest.append, hg, Except.map]
      | ok r => simp [Forest.append, hg, Except.map]
  | hc n rest ih =>
      intro h
      simp [forestAllElems] at h
      have hnode := (applyTagP1_clean env templateKeys body tag).1 n h.1
      simp only [Forest.append, applyTagForestP1, hnode]
      rw [ih h.2]
      cases hg : applyTagForestP1 env templateKeys body tag g with
      | error e => simp [Except.map]
      | ok r => simp [Except.map, Forest.append]

theorem forward_multi_roots (templateKeys : List String) (nodes : Forest) (attrs : AttrMap)
    (h : 1 < countTopElems nodes) :
    forward_html_attributes templateKeys nodes attrs = .error .multipleRoots := by
  simp [forward_html_attributes, h]

theorem forwardSteps_jsGet_none (templateKeys : List String) (name a : String)
    (hreg : templateKeys.contains name = false)
    (hallowed : (allowedAttributes name).contains a = false) :
    ∀ (l : AttrMap) (acc : AttrMap), jsGet acc a = none →
      jsGet (l.foldl (fun acc2 kv => forwardStep templateKeys name acc2 kv.1 kv.2) acc) a
        = none := by
  intro l
  induction l with
  | nil => intro acc h; exact h
  | cons kv rest ih =>
      intro acc h
      obtain ⟨k, w⟩ := kv
      simp only [List.foldl_cons]
      refine ih _ ?_
      unfold forwardStep
      by_cases hcond : (¬ templateKeys.contains name ∧ ¬ (allowedAttributes name).contains k)
      · rw [if_pos hcond]
        exact h
      · rw [if_neg hcond]
        have hka : ¬ a = k := by
          intro he
          subst he
          refine hcond ⟨fun hh => ?_, fun hh => ?_⟩
          · rw [hreg] at hh; exact Bool.false_ne_true hh
          · rw [hallowed] at hh; exact Bool.false_ne_true hh
        simp only []
        rw [jsSet_jsGet_ne _ _ _ _ hka]
        exact h

theorem contains_of_mem_str (l : List String) (a : String) (h : a ∈ l) :
    l.contains a = true := by
  induction l with
  | nil => simp at h
  | cons b rest ih =>
      rcases List.mem_cons.mp h with h1 | h2
      · subst h1; simp [List.contains_cons]
      · simp [List.contains_cons, ih h2, Or.inr h2]

theorem jsSetAdd_foldl_nodup :
    ∀ (l acc : List String), l.Nodup → (∀ x ∈ l, ¬ x ∈ acc) →
      l.foldl jsSetAdd acc = acc ++ l := by
  intro l
  induction l with
  | nil => intro acc _ _; simp
  | cons x rest ih =>
      intro acc hnd hdisj
      have hx : ¬ x ∈ acc := hdisj x (List.mem_cons_self _ _)
      have hxc : acc.contains x = false := by
        cases hc : acc.contains x with
        | false => rfl
        | true =>
            exact absurd (by simpa using hc) hx
      simp only [List.foldl_cons, jsSetAdd, hxc, Bool.false_eq_true, if_false]
      rw [ih (acc ++ [x]) (List.Nodup.of_cons hnd) ?_]
      · simp
      · intro y hy hmem
        rcases List.mem_append.mp hmem with h1 | h2
        · exact hdisj y (List.mem_cons_of_mem _ hy) h1
        · have : y = x := by simpa using h2
          subst this
          exact (List.nodup_cons.mp hnd).1 hy

theorem filterMap_congr_str {β : Type} (f g : String → Option β) :
    ∀ (l : List String), (∀ x ∈ l, f x = g x) → l.filterMap f = l.filterMap g := by
  intro l
  induction l with
  | nil => intro _; rfl
  | cons x rest ih =>
      intro h
      have hx := h x (List.mem_cons_self _ _)
      simp only [List.filterMap_cons, hx]
      rw [ih (fun y hy => h y (List.mem_cons_of_mem _ hy))]

theorem filterMap_jsGet_keys (A : AttrMap) (g : String → String → String)
    (hnd : (A.map Prod.fst).Nodup) :
    (A.map Prod.fst).filterMap (fun key => (jsGet A key).map (g key))
      = A.map (fun p => g p.1 p.2) := by
  induction A with
  | nil => rfl
  | cons p rest ih =>
      obtain ⟨k, v⟩ := p
      simp only [List.map_cons] at hnd ⊢
      have hk : jsGet ((k, v) :: rest) k = some v := by simp [jsGet]
      simp only [List.filterMap_cons, hk, Option.map_some']
      have hcong : (rest.map Prod.fst).filterMap
            (fun key => (jsGet ((k, v) :: rest) key).map (g key))
          = (rest.map Prod.fst).filterMap (fun key => (jsGet rest key).map (g key)) := by
        refine filterMap_congr_str _ _ _ (fun x hx => ?_)
        have hxk : ¬ k = x := by
          intro he
          subst he
          exact (List.nodup_cons.mp hnd).1 hx
        simp [jsGet, hxk]
      rw [hcong, ih (List.Nodup.of_cons hnd)]

theorem filterMap_jsGet_filter (A : AttrMap) (g : String → String → String) :
    ∀ (ks : List String),
      ks.filterMap (fun x => (jsGet A x).map (fun v => g x v))
        = (ks.filter (fun x => (jsGet A x).isSome)).map
            (fun x => g x ((jsGet A x).getD (""))) := by
  intro ks
  induction ks with
  | nil => rfl
  | cons x rest ih =>
      cases hx : jsGet A x with
      | none => simp [List.filterMap_cons, List.filter_cons, hx, ih]
      | some v => simp [List.filterMap_cons, List.filter_cons, hx, ih]

theorem expandKeys_step_plain (A : AttrMap) :
    ∀ (ks : List String) (acc : List String),
      (∀ x ∈ ks, ¬ x = "*" ∧ jsStartsBang x = false) →
      ks.foldl (fun acc2 key =>
        if key = "*" then A.foldl (fun a p => jsSetAdd a p.1) acc2
        else if jsStartsBang key then jsSetDelete acc2 (jsDropOne key)
        else jsSetAdd acc2 key) acc = ks.foldl jsSetAdd acc := by
  intro ks
  induction ks with
  | nil => intro acc _; rfl
  | cons x rest ih =>
      intro acc h
      have hx := h x (List.mem_cons_self _ _)
      simp only [List.foldl_cons, if_neg hx.1, hx.2, Bool.false_eq_true, if_false]
      exact ih _ (fun y hy => h y (List.mem_cons_of_mem _ hy))

/-! ## Claims -/

/-- C1: the full fixpoint expansion is claimed to create a style element
in a style-less head and return the serialized document, and to append
the accumulated css after an existing style element's content.  The
second half holds, but in the no-existing-style branch the source
executes a bare `return;` (src/src/index.ts line 142, src/unnamed/
part_001 line 133): the function returns `undefined` instead of the
serialized document — the newly built style element is discarded with
the in-memory tree. -/
theorem recursive_template_transform_finalize_bug :
    recursive_template_transform_model (fun p => p) [] 1 exDocNoStyle = some none
    ∧ injectCss exDocNoStyle ("X") = none
    ∧ injectCss exDocWithStyle ("X")
        = some ("<html><head><style>oldX</style></head><body></body></html>") :=
  ⟨rfl, rfl, rfl⟩

/-- C3: merging a usage `class` onto a root that already has one yields
usage tokens followed by the root's class tokens, as claimed; but
merging a usage `id` reads the root's `class` attribute (src/unnamed/
part_001 line 100, src/unnamed/part_000 line 91), not its `id`: with
root `<button id="base" class="btn">` and usage `id="submit"` the code
produces `id="submit btn"` where the claim (and the project's own
README) requires the root's id tokens (`"submit base"`). -/
theorem id_merge_uses_class_bug :
    forward_html_attributes []
        (Forest.cons (Node.elem ("button") [("id", "base"), ("class", "btn")] Forest.nil)
          Forest.nil)
        [("id", "submit")]
      = Except.ok (Forest.cons
          (Node.elem ("button") [("id", "submit btn"), ("class", "btn")] Forest.nil) Forest.nil)
    ∧ forward_html_attributes []
        (Forest.cons (Node.elem ("button") [("class", "btn")] Forest.nil) Forest.nil)
        [("class", "primary")]
      = Except.ok (Forest.cons
          (Node.elem ("button") [("class", "primary btn")] Forest.nil) Forest.nil) :=
  ⟨rfl, rfl⟩

/-- C8: with no front-matter `tag`, the claim says the definition is
registered under the file's base name with extension stripped.  The
part_001 draft does that (`filename.split(".")[0]`), but the current
TagTemplate constructor (src/src/index.ts line 31) evaluates
`template_filepath.split("/")[-1]`, which is `undefined` in JavaScript,
so `.split(".")` on it throws a TypeError instead of registering. -/
theorem tag_name_inference_crash_bug :
    tagTemplate_tag_name ("templates/button.njk") none = Except.error JsErr.typeError
    ∧ inferred_tag_name_p1 ("button.njk") = "button" :=
  ⟨rfl, rfl⟩

/-- C9: an element carrying no attribute mapping (`$el.attr()` being
`undefined`) is processed identically to one carrying an empty mapping:
the normalization of src/src/index.ts lines 166-168 maps both to the
empty mapping, after which the render call, the render variables, and
the `forward` helper closure coincide. -/
theorem no_attributes_equals_empty_mapping (tpl : TagTemplate) (content : String)
    (ks : List String) :
    processOccurrenceIdx tpl none content = processOccurrenceIdx tpl (some []) content
    ∧ renderVariables (idx_attributes_norm none) content
        = renderVariables (idx_attributes_norm (some [])) content
    ∧ forwardHelper (idx_attributes_norm none) ks
        = forwardHelper (idx_attributes_norm (some [])) ks :=
  ⟨rfl, rfl, rfl⟩

/-- C5: registering a definition whose effective tag name (front-matter
`tag`, or the inferred default when absent) is already present throws
`DuplicateTagError` before any mutation, leaving the registry exactly as
it was; a fresh name appends the definition. -/
theorem add_template_duplicate_tag (templates : List (String × TemplateSrc))
    (template : TemplateSrc) (d : String) :
    ((jsGet templates (template.tag.getD d)).isSome = true →
        add_template templates template d = Except.error JsErr.duplicateTag)
    ∧ ((jsGet templates (template.tag.getD d)) = none →
        add_template templates template d
          = Except.ok (templates ++ [(template.tag.getD d, template)])) := by
  cases ht : template.tag with
  | none =>
      constructor
      · intro h
        simp only [Option.getD] at h
        simp [add_template, ht, h]
      · intro h
        simp only [Option.getD] at h
        simp [add_template, ht, h]
  | some t =>
      constructor
      · intro h
        simp only [Option.getD] at h
        simp [add_template, ht, h]
      · intro h
        simp only [Option.getD] at h
        simp [add_template, ht, h]

theorem add_template_duplicate_tag_witness :
    add_template [(("Card"), cardSrc)] cardSrc2 ("x") = Except.error JsErr.duplicateTag
    ∧ add_template [(("Card"), cardSrc)] untaggedSrc ("hero")
        = Except.ok [(("Card"), cardSrc), (("hero"), untaggedSrc)] :=
  ⟨(add_template_duplicate_tag [(("Card"), cardSrc)] cardSrc2 ("x")).1 (by decide),
   (add_template_duplicate_tag [(("Card"), cardSrc)] untaggedSrc ("hero")).2 (by decide)⟩

/-- C6 counterexample: the claim says a usage attribute outside the
allowed set of an unregistered root is absent from the final fragment's
attributes.  When the rendered root itself carries an attribute of that
name, it survives: root `<div href="/a">` with usage `href="/b"` (href
is not a valid div attribute) yields a fragment whose root still has
`href="/a"` — the attribute is present, only the usage value is not
applied. -/
theorem usage_attribute_absent_counterexample :
    forward_html_attributes []
        (Forest.cons (Node.elem ("div") [("href", "/a")] Forest.nil) Forest.nil)
        [("href", "/b")]
      = Except.ok (Forest.cons (Node.elem ("div") [("href", "/a")] Forest.nil) Forest.nil)
    ∧ rootAttr (Forest.cons (Node.elem ("div") [("href", "/a")] Forest.nil) Forest.nil) ("href")
        = some ("/a") :=
  ⟨rfl, rfl⟩

/-- C6 (amended): a usage attribute whose name is not in the allowed set
for the unregistered root element name is not forwarded — the root's
attributes at that name are unchanged, so whenever the rendered root
does not itself define it, it is absent from the final fragment — while
the attribute is still passed to the renderer as a template variable. -/
theorem usage_attribute_not_forwarded
    (env : String → AttrMap → Forest) (templateKeys : List String) (body : String)
    (attribs : AttrMap) (children : Forest) (a v : String)
    (name : String) (rootAttribs : AttrMap) (rootChildren : Forest)
    (hmem : jsGet attribs a = some v) (hcontent : ¬ a = "content")
    (hroot : env body (renderVariables attribs (serializeForest children))
        = Forest.cons (Node.elem name rootAttribs rootChildren) Forest.nil)
    (hreg : templateKeys.contains name = false)
    (hallowed : (allowedAttributes name).contains a = false)
    (hnothave : jsGet rootAttribs a = none) :
    (∃ frag, processOccurrenceP1 env templateKeys body attribs children = Except.ok frag
        ∧ rootAttr frag a = none)
    ∧ jsGet (renderVariables attribs (serializeForest children)) a = some v := by
  constructor
  · unfold processOccurrenceP1
    rw [hroot]
    refine ⟨setFirstTopElemAttribs
        (Forest.cons (Node.elem name rootAttribs rootChildren) Forest.nil)
        (attribs.foldl (fun acc kv => forwardStep templateKeys name acc kv.1 kv.2) rootAttribs),
      ?_, ?_⟩
    · rfl
    · exact forwardSteps_jsGet_none templateKeys name a hreg hallowed attribs rootAttribs hnothave
  · rw [renderVariables_jsGet_ne attribs (serializeForest children) a hcontent]
    exact hmem

theorem usage_attribute_not_forwarded_witness :
    (∃ frag, processOccurrenceP1 envDivRoot [] ("b") [("data-x", "1")] Forest.nil
        = Except.ok frag ∧ rootAttr frag ("data-x") = none)
    ∧ jsGet (renderVariables [("data-x", "1")] (serializeForest Forest.nil)) ("data-x")
        = some ("1") :=
  usage_attribute_not_forwarded envDivRoot [] ("b") [("data-x", "1")] Forest.nil
    ("data-x") ("1") ("div") [] Forest.nil (by decide) (by decide) rfl (by decide)
    (by decide) (by decide)

/-- C10: the `forward` template helper — with no arguments it serializes
every usage-attribute key as unquoted `key=value`, space-joined; with
explicit names it keeps only the named keys present in the attributes
(set semantics, insertion order); a `"*"` argument adds every key; a
`"!k"` argument deletes `k` only from the keys accumulated by earlier
arguments, so an exclusion written before the inclusion that would add
the key has no effect. -/
theorem forward_helper_semantics (A : AttrMap) (ks : List String) (key : String)
    (rest : List String) :
    ((A.map Prod.fst).Nodup →
      forwardHelper A [] = joinSep (" ") (A.map (fun p => p.1 ++ "=" ++ p.2)))
    ∧ forwardHelper A [("*")] = forwardHelper A []
    ∧ (¬ ks = [] → ks.Nodup → (∀ x ∈ ks, ¬ x = "*" ∧ jsStartsBang x = false) →
        forwardHelper A ks = joinSep (" ")
          ((ks.filter (fun x => (jsGet A x).isSome)).map
            (fun x => x ++ "=" ++ ((jsGet A x).getD ("")))))
    ∧ (¬ rest = [] → ¬ key = "*" → jsStartsBang key = true →
        forwardHelper A (key :: rest) = forwardHelper A rest)
    ∧ (¬ ks = [] → ¬ key = "*" → jsStartsBang key = true →
        expandKeys A (ks ++ [key]) = jsSetDelete (expandKeys A ks) (jsDropOne key)) := by
  refine ⟨?_, rfl, ?_, ?_, ?_⟩
  · intro hnd
    have he : expandKeys A [] = A.map Prod.fst := by
      unfold expandKeys
      simp only [List.length_nil, Nat.lt_irrefl, if_false, gt_iff_lt]
      have h1 : (A.map Prod.fst).foldl jsSetAdd [] = A.foldl (fun x y => jsSetAdd x y.1) [] :=
        List.foldl_map _ _ _ _
      have h2 := jsSetAdd_foldl_nodup (A.map Prod.fst) [] hnd (by intro x _ hx; simp at hx)
      rw [← h1, h2]
      rfl
    unfold forwardHelper
    rw [he]
    exact congrArg (joinSep (" ")) (filterMap_jsGet_keys A (fun x y => x ++ "=" ++ y) hnd)
  · intro hne hnd hplain
    have hlen : 0 < ks.length := List.length_pos.mpr hne
    have he : expandKeys A ks = ks := by
      unfold expandKeys
      rw [if_pos hlen, expandKeys_step_plain A ks [] hplain]
      have := jsSetAdd_foldl_nodup ks [] hnd (by intro x _ hx; simp at hx)
      rw [this]
      rfl
    unfold forwardHelper
    rw [he]
    exact congrArg (joinSep (" ")) (filterMap_jsGet_filter A (fun x v => x ++ "=" ++ v) ks)
  · intro hrest hstar hbang
    have he : expandKeys A (key :: rest) = expandKeys A rest := by
      unfold expandKeys
      rw [if_pos (by simp : 0 < (key :: rest).length),
        if_pos (List.length_pos.mpr hrest)]
      simp only [List.foldl_cons, if_neg hstar, hbang, if_true]
      rfl
    unfold forwardHelper
    rw [he]
  · intro hksne hstar hbang
    unfold expandKeys
    rw [if_pos (by simp : 0 < (ks ++ [key]).length),
      if_pos (List.length_pos.mpr hksne), List.foldl_append]
    simp only [List.foldl_cons, List.foldl_nil, if_neg hstar, hbang, if_true]

theorem forward_helper_semantics_witness :
    forwardHelper [("label", "a"), ("name", "b")] [] = "label=a name=b"
    ∧ forwardHelper [("label", "a"), ("name", "b")] [("*")] = "label=a name=b"
    ∧ forwardHelper [("label", "a"), ("name", "b")] [("label"), ("missing")] = "label=a"
    ∧ forwardHelper [("label", "a"), ("name", "b")] [("!label"), ("*")] = "label=a name=b"
    ∧ expandKeys [("label", "a"), ("name", "b")] [("*"), ("!label")] = [("name")] := by
  refine ⟨?_, ?_, ?_, ?_, ?_⟩
  · exact ((forward_helper_semantics [("label", "a"), ("name", "b")] [] ("x") []).1
      (by decide)).trans rfl
  · exact ((forward_helper_semantics [("label", "a"), ("name", "b")] [] ("x") []).2.1).trans
      (((forward_helper_semantics [("label", "a"), ("name", "b")] [] ("x") []).1
        (by decide)).trans rfl)
  · exact ((forward_helper_semantics [("label", "a"), ("name", "b")]
      [("label"), ("missing")] ("x") []).2.2.1 (by decide) (by decide) (by decide)).trans rfl
  · refine ((forward_helper_semantics [("label", "a"), ("name", "b")] [] ("!label")
      [("*")]).2.2.2.1 (by decide) (by decide) (by decide)).trans ?_
    exact ((forward_helper_semantics [("label", "a"), ("name", "b")] [] ("x") []).2.1).trans
      (((forward_helper_semantics [("label", "a"), ("name", "b")] [] ("x") []).1
        (by decide)).trans rfl)
  · exact ((forward_helper_semantics [("label", "a"), ("name", "b")] [("*")] ("!label")
      []).2.2.2.2 (by decide) (by decide) (by decide)).trans rfl

/-- C2: a template occurrence whose rendered body parses to more than
one top-level element makes forward_html_attributes throw
`MultipleRootsError`; the occurrence is not replaced (its processing
yields the error instead of a replacement fragment), and the error
propagates through the pass and the fixpoint loop, so the whole
document's expansion aborts with no output.  The occurrence is placed
after a prefix free of the same tag (earlier occurrences are processed
first in document order). -/
theorem multiple_roots_abort (env : String → AttrMap → Forest) (templateKeys : List String)
    (tag : String) (tpl : TemplateSrc) (rest : List (String × TemplateSrc))
    (preprocess : String → String) (pre post : Forest) (attribs : AttrMap)
    (children : Forest) (fuel : Nat) (processed : List String)
    (acc : List (String × String))
    (hpre : forestAllElems (fun n => !(n == tag)) pre = true)
    (hmr : 1 < countTopElems
        (env tpl.body (renderVariables attribs (serializeForest children)))) :
    (∀ (nodes : Forest) (attrs : AttrMap), 1 < countTopElems nodes →
        forward_html_attributes templateKeys nodes attrs = Except.error JsErr.multipleRoots)
    ∧ processOccurrenceP1 env templateKeys tpl.body attribs children
        = Except.error JsErr.multipleRoots
    ∧ runP1 env templateKeys preprocess ((tag, tpl) :: rest) (fuel + 1)
        (pre.append (.cons (.elem tag attribs children) post)) processed acc
      = Except.error JsErr.multipleRoots := by
  have hocc : processOccurrenceP1 env templateKeys tpl.body attribs children
      = Except.error JsErr.multipleRoots := by
    unfold processOccurrenceP1
    exact forward_multi_roots templateKeys _ attribs hmr
  refine ⟨fun nodes attrs h => forward_multi_roots templateKeys nodes attrs h, hocc, ?_⟩
  have hnode : applyTagNodeP1 env templateKeys tpl.body tag (.elem tag attribs children)
      = Except.error JsErr.multipleRoots := by
    simp [applyTagNodeP1, hocc]
  have hfor : applyTagForestP1 env templateKeys tpl.body tag
      (Forest.cons (.elem tag attribs children) post) = Except.error JsErr.multipleRoots := by
    simp [applyTagForestP1, hnode]
  have hdoc : applyTagForestP1 env templateKeys tpl.body tag
      (pre.append (.cons (.elem tag attribs children) post))
      = Except.error JsErr.multipleRoots := by
    rw [applyTagForestP1_append_clean env templateKeys tpl.body tag _ pre hpre, hfor]
    rfl
  have hpass : transformPassP1 env templateKeys preprocess ((tag, tpl) :: rest)
      (pre.append (.cons (.elem tag attribs children) post)) processed
      = Except.error JsErr.multipleRoots := by
    simp [transformPassP1, hdoc]
  simp [runP1, hpass]

theorem multiple_roots_abort_witness :
    processOccurrenceP1 envTwoRoots [] (twoRootsSrc.body) [] Forest.nil
      = Except.error JsErr.multipleRoots
    ∧ runP1 envTwoRoots [] (fun p => p) [(("tworoots"), twoRootsSrc)] 1
        (Forest.cons (Node.elem ("tworoots") [] Forest.nil) Forest.nil) [] []
      = Except.error JsErr.multipleRoots := by
  have h := multiple_roots_abort envTwoRoots [] ("tworoots") twoRootsSrc [] (fun p => p)
    Forest.nil Forest.nil [] Forest.nil 0 [] [] (by decide) (by decide)
  exact ⟨h.2.1, h.2.2⟩

/-- C7: for an acyclic template-usage graph — witnessed by a rank
function on tag names under which every registered template's render
output only contains registered tags of strictly smaller rank, ranks
being at least 1 — the fixpoint loop reaches a pass with no rewrites
within (rank bound of the document) + 1 passes: `runLoopIdx` with fuel
`D + 1` returns `some`, i.e. the loop terminates and performs at most
the maximum nesting depth plus one passes. -/
theorem fixpoint_terminates_depth_bound (preprocess : String → String)
    (reg : List (String × TagTemplate)) (r : String → Nat)
    (hpos : ∀ tg tpl, (tg, tpl) ∈ reg → 1 ≤ r tg)
    (hrend : ∀ tg tpl, (tg, tpl) ∈ reg → ∀ attrs content,
        forestAllElems (fun n => (!(isRegistered reg n)) || decide (r n < r tg))
          (tpl.render attrs content) = true) :
    ∀ (D : Nat) (doc : Forest) (processed : List String) (acc : List (String × String)),
      forestAllElems (fun n => (!(isRegistered reg n)) || decide (r n ≤ D)) doc = true →
      (runLoopIdx preprocess reg (D + 1) doc processed acc).isSome = true := by
  intro D
  induction D with
  | zero =>
      intro doc processed acc hdoc
      have hnone : ∀ tg tpl, (tg, tpl) ∈ reg →
          forestAllElems (fun n => !(n == tg)) doc = true := by
        intro tg tpl hm
        refine (forestAllElems_imp _ _ (fun n hn => ?_)).2 doc hdoc
        by_cases he : n = tg
        · subst he
          have hreg2 : isRegistered reg n = true := mem_jsGet_isSome reg n tpl hm
          rw [hreg2] at hn
          simp only [Bool.not_true, Bool.false_or, decide_eq_true_eq] at hn
          have := hpos n tpl hm
          omega
        · simpa using he
      have hpass := transformPassIdx_no_matches preprocess reg doc processed hnone
      rw [runLoopIdx_succ_false preprocess reg 0 doc processed acc (by rw [hpass])]
      rfl
  | succ D ih =>
      intro doc processed acc hdoc
      cases ht : (transformPassIdx preprocess reg doc processed).transformed with
      | false =>
          rw [runLoopIdx_succ_false preprocess reg (D + 1) doc processed acc ht]
          rfl
      | true =>
          rw [runLoopIdx_succ_true preprocess reg (D + 1) doc processed acc ht]
          refine ih _ _ _ ?_
          have hconv : forestAllElems (fun n => (!(isRegistered reg n)) ||
              (if (reg.map Prod.fst).contains n then decide (r n ≤ D + 1)
               else decide (r n ≤ (D + 1) - 1))) doc = true := by
            refine (forestAllElems_imp _ _ (fun n hn => ?_)).2 doc hdoc
            by_cases hr : isRegistered reg n = true
            · obtain ⟨b, hb⟩ := jsGet_isSome_mem reg n hr
              have hcont : ((reg.map Prod.fst).contains n) = true :=
                contains_of_mem_str _ _ (List.mem_map.mpr ⟨(n, b), hb, rfl⟩)
              rw [hr] at hn
              rw [hr, if_pos hcont]
              simpa using hn
            · have hf : isRegistered reg n = false := by simpa using hr
              simp [hf]
          have hsub : ∀ tg tpl, (tg, tpl) ∈ reg → isRegistered reg tg = true ∧
              ∀ attrs content,
                forestAllElems (fun n => (!(isRegistered reg n)) || decide (r n < r tg))
                  (tpl.render attrs content) = true :=
            fun tg tpl hm => ⟨mem_jsGet_isSome reg tg tpl hm, hrend tg tpl hm⟩
          have := transformPassIdx_rank preprocess (isRegistered reg) r (D + 1)
            reg doc processed hsub hconv
          simpa using this

theorem fixpoint_terminates_depth_bound_witness :
    (runLoopIdx (fun p => p) exRegistryIdx 2 exDocTwoCards [] []).isSome = true := by
  refine fixpoint_terminates_depth_bound (fun p => p) exRegistryIdx
    (fun t => if t = "card" then 1 else 0) ?_ ?_ 1 exDocTwoCards [] [] ?_
  · intro tg tpl hm
    simp only [exRegistryIdx, List.mem_singleton] at hm
    cases hm
    decide
  · intro tg tpl hm attrs content
    simp only [exRegistryIdx, List.mem_singleton] at hm
    cases hm
    rfl
  · decide

theorem iterPassIdx_succ_comm (preprocess : String → String)
    (reg : List (String × TagTemplate)) :
    ∀ (n : Nat) (s : Forest × List String),
      iterPassIdx preprocess reg (n + 1) s =
        ((transformPassIdx preprocess reg (iterPassIdx preprocess reg n s).1
            (iterPassIdx preprocess reg n s).2).doc,
         (transformPassIdx preprocess reg (iterPassIdx preprocess reg n s).1
            (iterPassIdx preprocess reg n s).2).processed) := by
  intro n
  induction n with
  | zero => intro s; rfl
  | succ n ih =>
      intro s
      exact ih ((transformPassIdx preprocess reg s.1 s.2).doc,
        (transformPassIdx preprocess reg s.1 s.2).processed)

/-- C4: across the whole fixpoint run of one document (any number of
occurrences and passes), a registered tag's compiled-stylesheet text is
appended to the accumulated css exactly once — at most once because the
`processed_tags` set is checked before appending and extended with the
tag immediately after, and at least once because a pass in which the
tag matches (here: pass `k`, at the tag's position in registry order)
puts the tag into `processed_tags`, which at the end of the run lists
exactly the appended tags, without repetition. -/
theorem stylesheet_appended_exactly_once (preprocess : String → String)
    (s1 s2 : List (String × TagTemplate)) (tag : String) (tpl : TagTemplate)
    (fuel k : Nat) (doc : Forest) (out : LoopOut)
    (hrun : runLoopIdx preprocess (s1 ++ (tag, tpl) :: s2) fuel doc [] [] = some out)
    (hused : (applyTagForestIdx tpl tag
        (transformPassIdx preprocess s1
          (iterPassIdx preprocess (s1 ++ (tag, tpl) :: s2) k (doc, [])).1
          (iterPassIdx preprocess (s1 ++ (tag, tpl) :: s2) k (doc, [])).2).doc).2 = true) :
    (out.appends.map Prod.fst).count tag = 1
    ∧ (∀ t, (out.appends.map Prod.fst).count t ≤ 1)
    ∧ out.processed = out.appends.map Prod.fst := by
  obtain ⟨extra, he1, he2, he3⟩ :=
    runLoopIdx_appends preprocess (s1 ++ (tag, tpl) :: s2) fuel doc [] [] out hrun
  have hpe : out.processed = out.appends.map Prod.fst := by
    rw [he1, he2]
    simp
  have hnodup : (out.appends.map Prod.fst).Nodup := by
    rw [← hpe]
    exact he3 List.nodup_nil
  have hmem1 : tag ∈ (iterPassIdx preprocess (s1 ++ (tag, tpl) :: s2) (k + 1) (doc, [])).2 := by
    rw [iterPassIdx_succ_comm preprocess (s1 ++ (tag, tpl) :: s2) k (doc, [])]
    exact transformPassIdx_matched_mem preprocess s1 s2 tag tpl
      (iterPassIdx preprocess (s1 ++ (tag, tpl) :: s2) k (doc, [])).1
      (iterPassIdx preprocess (s1 ++ (tag, tpl) :: s2) k (doc, [])).2 hused
  have hmem : tag ∈ out.appends.map Prod.fst := by
    rw [← hpe]
    exact runLoopIdx_iter_processed preprocess (s1 ++ (tag, tpl) :: s2) (k + 1) fuel
      doc [] [] out hrun tag hmem1
  refine ⟨?_, ?_, hpe⟩
  · have h1 := List.nodup_iff_count_le_one.mp hnodup tag
    have h2 : 0 < (out.appends.map Prod.fst).count tag := List.count_pos_iff.mpr hmem
    omega
  · exact List.nodup_iff_count_le_one.mp hnodup

theorem stylesheet_appended_exactly_once_witness :
    (((LoopOut.mk
        (Forest.cons (Node.elem ("div") [] Forest.nil)
          (Forest.cons (Node.elem ("div") [] Forest.nil) Forest.nil))
        [("card")] [(("card"), ("card.css"))]).appends.map Prod.fst).count ("card") = 1) := by
  have h := stylesheet_appended_exactly_once (fun p => p) [] [] ("card") divCardTemplate
    2 0 exDocTwoCards
    (LoopOut.mk
      (Forest.cons (Node.elem ("div") [] Forest.nil)
        (Forest.cons (Node.elem ("div") [] Forest.nil) Forest.nil))
      [("card")] [(("card"), ("card.css"))]) rfl rfl
  exact h.1
